import Mathlib

/-!
Shallow embedding of the deterministic turn-synchronization core of the
TrRainGame client (OpenFront-style lockstep game):

* `ClientGameRunner` — the remote-mode turn consumer
  (`src/src/client/ClientGameRunner.ts`): the `start`-message catch-up
  handler, the live `turn`-message handler, and the worker update callback.
* `Transport` — the message channel (`src/unnamed/part_007`): the
  `socket.onopen` buffer flush and `sendMsg`.
* `LocalServer` — the in-process turn source for single-player and replay
  (`src/src/client/InputHandler.ts`).

Mutable class fields become explicit state records; callbacks that fire
side effects become functions returning the new state together with the
list of emitted messages/actions, in emission order.
-/

namespace TrRain

/-- Player intent. The full `Intent` union (`core/Schemas.ts`) is not under
`src/`; claims treat intents as opaque values, so we model the shape the
spec gives (`kind`, originating client, kind-specific payload). -/
structure Intent where
  kind     : String
  clientID : String
  payload  : Nat
deriving DecidableEq

/-- A committed turn: turn number, ordered intents, optional sampled hash.
Hashes are JS `number`s in the source (`SendHashEvent.hash : number`);
we model them as `Nat`, where JS falsiness of a hash value corresponds to
the value `0` (or the field being absent). -/
structure Turn where
  turnNumber : Nat
  intents    : List Intent
  hash       : Option Nat := none
deriving DecidableEq

namespace ClientGameRunner

/-- The gap-filling loop of the `start`-message handler
(`ClientGameRunner.start`, onmessage):

```
while (turn.turnNumber - 1 > this.turnsSeen) {
  this.worker.sendTurn({ turnNumber: this.turnsSeen, intents: [] });
  this.turnsSeen++;
}
```

Both operands are non-negative, and for `turnNumber = 0` the JS comparison
`-1 > turnsSeen` is false exactly as the truncated `Nat` subtraction makes
`0 - 1 > turnsSeen` false, so `Nat` subtraction is faithful here.
Returns the synthesized empty turns sent to the worker, in order.

Each iteration strictly decreases the distance `target - 1 - turnsSeen`, so
the loop is implemented by structural recursion on that distance;
`fillLoop_eq` below proves the function satisfies exactly the source's loop
equation. -/
def fillLoopGo (turnsSeen : Nat) : Nat → List Turn
  | 0 => []
  | gap + 1 =>
      { turnNumber := turnsSeen, intents := [] } :: fillLoopGo (turnsSeen + 1) gap

/-- The gap-filling while loop of the `start` handler; see `fillLoopGo`. -/
def fillLoop (target : Nat) (turnsSeen : Nat) : List Turn :=
  fillLoopGo turnsSeen (target - 1 - turnsSeen)

/-- `fillLoop` satisfies the loop equation of the source's `while` loop:
iterate exactly while `turn.turnNumber - 1 > turnsSeen`. -/
theorem fillLoop_eq (target turnsSeen : Nat) :
    fillLoop target turnsSeen =
      if target - 1 > turnsSeen then
        { turnNumber := turnsSeen, intents := [] } :: fillLoop target (turnsSeen + 1)
      else [] := by
  unfold fillLoop
  cases h : target - 1 - turnsSeen with
  | zero => rw [if_neg (by omega)]; rfl
  | succ g =>
      rw [if_pos (by omega)]
      have h2 : target - 1 - (turnsSeen + 1) = g := by omega
      rw [h2]
      rfl

/-- One iteration of the `for (const turn of message.turns)` loop in the
`start` handler: skip stale turns, run the gap-filling `while` loop, then
send the real turn. Returns the updated `turnsSeen` counter and the turns
handed to `worker.sendTurn`, in order. -/
def processStartTurn (turnsSeen : Nat) (turn : Turn) : Nat × List Turn :=
  if turn.turnNumber < turnsSeen then
    (turnsSeen, [])
  else
    let fills := fillLoop turn.turnNumber turnsSeen
    (turnsSeen + fills.length + 1, fills ++ [turn])

/-- The whole `start`-message handler body: fold `processStartTurn` over the
batch. Returns the final `turnsSeen` and every turn sent to the worker. -/
def processStartBatch (turnsSeen : Nat) (batch : List Turn) : Nat × List Turn :=
  batch.foldl
    (fun acc turn =>
      let next := processStartTurn acc.1 turn
      (next.1, acc.2 ++ next.2))
    (turnsSeen, [])

/-- The live `turn`-message handler (`ClientGameRunner.start`, onmessage):

```
if (!this.hasJoined) { this.transport.joinGame(0); return; }
if (this.turnsSeen !== message.turn.turnNumber) { console.error(...); }
else { this.worker.sendTurn(message.turn); this.turnsSeen++; }
```

Returns `(new turnsSeen, turns sent to the worker, rejoin requested)`. -/
def turnMessageHandler (hasJoined : Bool) (turnsSeen : Nat) (turn : Turn) :
    Nat × List Turn × Bool :=
  if !hasJoined then
    (turnsSeen, [], true)
  else if turnsSeen ≠ turn.turnNumber then
    (turnsSeen, [], false)
  else
    (turnsSeen + 1, [turn], false)

/-- Observable actions performed by the worker update callback passed to
`worker.start` in `ClientGameRunner.start`. -/
inductive RunnerAction where
  | showError    (errMsg : String)
  | stopGame
  | turnComplete
  | sendHash     (tick : Nat) (hash : Nat)
  | viewUpdate
  | renderTick
  | saveGame
deriving DecidableEq

/-- Input to the worker update callback: either an `ErrorUpdate` (has
`errMsg`) or a `GameUpdateViewData` with its hash updates and win updates. -/
inductive WorkerUpdate where
  | error  (errMsg : String)
  | update (hashes : List (Nat × Nat)) (wins : Nat)
deriving DecidableEq

/-- The worker update callback of `ClientGameRunner.start`, as the ordered
list of actions it performs:

```
if ("errMsg" in gu) { showErrorModal(...); this.stop(); return; }
this.transport.turnComplete();
gu.updates[GameUpdateType.Hash].forEach((hu) => emit SendHashEvent(hu.tick, hu.hash));
this.gameView.update(gu);
this.renderer.tick();
if (gu.updates[GameUpdateType.Win].length > 0) { this.saveGame(...); }
```
-/
def workerUpdateActions : WorkerUpdate → List RunnerAction
  | .error errMsg => [.showError errMsg, .stopGame]
  | .update hashes wins =>
      .turnComplete ::
        (hashes.map (fun h => .sendHash h.1 h.2) ++
          ([.viewUpdate, .renderTick] ++
            (if wins > 0 then [.saveGame] else [])))

end ClientGameRunner

namespace Transport

/-- Actions observable from the remote `Transport` (`src/unnamed/part_007`):
a raw string sent on the websocket, or the caller's open callback firing. -/
inductive Action where
  | wsSend       (msg : String)
  | openCallback
deriving DecidableEq

/-- The buffer-drain `while` loop of `connectRemote`'s `socket.onopen`
handler:

```
while (this.buffer.length > 0) {
  console.log("sending dropped message");
  const msg = this.buffer.pop();
  if (msg === undefined) { console.warn("msg is undefined"); continue; }
  this.socket.send(msg);
}
```

`Array.prototype.pop` removes and returns the LAST element; `undefined`
only arises from an empty array, which the loop guard excludes. Each
iteration shrinks the buffer by one, so the loop runs `buffer.length`
times; we implement it by structural recursion on that count. Returns the
strings passed to `socket.send`, in order. -/
def flushLoopGo : Nat → List String → List String
  | _, [] => []
  | 0, _ :: _ => []
  | fuel + 1, m :: rest =>
      (m :: rest).getLast (by simp) :: flushLoopGo fuel (m :: rest).dropLast

/-- The `onopen` buffer drain; see `flushLoopGo`. -/
def flushLoop (buffer : List String) : List String :=
  flushLoopGo buffer.length buffer

/-- The full `socket.onopen` handler body: drain the buffer, then invoke
`onconnect()`. Returns the actions in execution order together with the
buffer as the loop leaves it (the loop exits only once the buffer is
empty). -/
def onOpen (buffer : List String) : List Action × List String :=
  ((flushLoop buffer).map Action.wsSend ++ [Action.openCallback], [])

/-- WebSocket ready states (`WebSocket.CONNECTING/OPEN/CLOSING/CLOSED`). -/
inductive ReadyState where
  | connecting
  | opened
  | closing
  | closed
deriving DecidableEq

/-- `Transport.sendMsg` in remote mode (`isLocal = false`), as a function of
the socket handle and outbound buffer:

```
else if (this.socket === null) { return; }
const str = JSON.stringify(msg, replacer);
if (this.socket.readyState === WebSocket.CLOSED) {
  this.socket.close(); this.socket = null;
  this.connectRemote(this.onconnect, this.onmessage);
  this.buffer.push(str);
} else {
  this.socket.send(str);
}
```

Returns `(new buffer, directly sent actions, reconnect initiated)`. A
message is buffered exactly in the CLOSED branch; in every other non-null
ready state the source calls `socket.send` directly. -/
def sendMsg (readyState : Option ReadyState) (buffer : List String)
    (str : String) : List String × List Action × Bool :=
  match readyState with
  | none => (buffer, [], false)
  | some .closed => (buffer ++ [str], [], true)
  | some _ => (buffer, [Action.wsSend str], false)

end Transport

namespace LocalServer

/-- The server messages the `LocalServer` delivers through its
`clientMessage` callback that the claims observe (`ServerTurnMessage` and
`ServerDesyncMessage`, with the fields the source fills in). -/
inductive ServerMsg where
  | turn   (t : Turn)
  | desync (turn : Nat) (correctHash : Nat) (clientsWithCorrectHash : Nat)
           (totalActiveClients : Nat) (yourHash : Nat)
deriving DecidableEq

/-- The client messages `LocalServer.onMessage` handles. -/
inductive ClientMsg where
  | intent (i : Intent)
  | hash   (turnNumber : Nat) (hash : Nat)
  | winner (winner : Nat)
deriving DecidableEq

/-- The mutable fields of the `LocalServer` class
(`src/src/client/InputHandler.ts`), plus:

* `hasGameRecord` — `this.lobbyConfig.gameRecord !== undefined`, the
  replay-mode test the source repeats at each use site;
* `gameEnded` — whether `endGame()` has run and cleared
  `turnCheckInterval`, so the tick callback no longer fires.

Hashes and times are JS numbers used as integers; the replay speed
multiplier takes the values 2, 1, 0.5, 0 (`ReplaySpeedMultiplier`), so it
is a rational. -/
structure State where
  replayTurns           : List Turn
  turns                 : List Turn
  intents               : List Intent
  paused                : Bool
  replaySpeedMultiplier : ℚ
  winner                : Option Nat
  turnsExecuted         : Nat
  turnStartTime         : Nat
  hasGameRecord         : Bool
  gameEnded             : Bool
deriving DecidableEq

/-- `this.turns[n].hash = h`: set the hash of the `n`-th committed turn.
If `n` is out of range the JS statement throws a `TypeError` before any
mutation; the exception aborts only the current callback, so the
observable state effect is no change, which is what the out-of-range case
returns. -/
def setHash : List Turn → Nat → Nat → List Turn
  | [], _, _ => []
  | t :: ts, 0, h => { t with hash := some h } :: ts
  | t :: ts, n + 1, h => t :: setHash ts n h

/-- `LocalServer.onMessage(clientMsg)`. Returns the new state and the
messages delivered to the client via `this.clientMessage`, in order.

In the replay hash branch the source reads
`this.replayTurns[clientMsg.turnNumber].hash` and tests `!archivedHash`:
for a JS number this is true when the field is `undefined` or when the
number is `0` (both are falsy). An out-of-range index makes the property
read itself throw before any mutation, so that case returns the state
unchanged (see `setHash` for the same convention). -/
def onMessage (st : State) (msg : ClientMsg) : State × List ServerMsg :=
  match msg with
  | .intent i =>
      if st.hasGameRecord then
        (st, [])
      else if st.paused then
        (st, [])
      else
        ({ st with intents := st.intents ++ [i] }, [])
  | .hash turnNumber h =>
      if ¬st.hasGameRecord then
        if turnNumber % 100 = 0 then
          ({ st with turns := setHash st.turns turnNumber h }, [])
        else
          (st, [])
      else
        match st.replayTurns[turnNumber]? with
        | none => (st, [])
        | some archivedTurn =>
            match archivedTurn.hash with
            | none => (st, [])
            | some archivedHash =>
                if archivedHash = 0 then
                  (st, [])
                else if archivedHash ≠ h then
                  (st, [.desync turnNumber archivedHash 0 1 h])
                else
                  (st, [])
  | .winner w => ({ st with winner := some w }, [])

/-- `LocalServer.turnComplete()`. -/
def turnComplete (st : State) : State :=
  { st with turnsExecuted := st.turnsExecuted + 1 }

/-- `LocalServer.pause()`. -/
def pause (st : State) : State :=
  { st with paused := true }

/-- `LocalServer.resume()`. -/
def resume (st : State) : State :=
  { st with paused := false }

/-- The shared tail of `LocalServer.endTurn()`: seal `this.intents` into
`pastTurn`, append it to `this.turns`, clear the live buffer, and send the
turn to the client. -/
def sealTurn (st : State) : State × List ServerMsg :=
  let pastTurn : Turn := { turnNumber := st.turns.length, intents := st.intents }
  ({ st with turns := st.turns ++ [pastTurn], intents := [] },
    [ServerMsg.turn pastTurn])

/-- `LocalServer.endTurn()`:

```
if (this.paused) { return; }
if (this.replayTurns.length > 0) {
  if (this.turns.length >= this.replayTurns.length) { this.endGame(); return; }
  this.intents = this.replayTurns[this.turns.length].intents;
}
const pastTurn: Turn = { turnNumber: this.turns.length, intents: this.intents };
this.turns.push(pastTurn);
this.intents = [];
this.clientMessage({ type: "turn", turn: pastTurn });
```

`endGame()` clears `turnCheckInterval` (modelled by `gameEnded := true`);
the replay index read is in range because of the guard just above it. -/
def endTurn (st : State) : State × List ServerMsg :=
  if st.paused then
    (st, [])
  else if st.replayTurns.length > 0 then
    if st.turns.length ≥ st.replayTurns.length then
      ({ st with gameEnded := true }, [])
    else
      sealTurn { st with
        intents := (st.replayTurns.getD st.turns.length
          { turnNumber := 0, intents := [] }).intents }
  else
    sealTurn st

/-- The `setInterval` callback installed by `LocalServer.start()`, fired at
wall-clock time `now`:

```
const turnIntervalMs = this.lobbyConfig.serverConfig.turnIntervalMs() *
  this.replaySpeedMultiplier;
if (this.turnsExecuted === this.turns.length &&
    Date.now() > this.turnStartTime + turnIntervalMs) {
  this.turnStartTime = Date.now();
  this.endTurn();
}
```
-/
def turnCheck (turnIntervalMs : Nat) (st : State) (now : Nat) :
    State × List ServerMsg :=
  if st.turnsExecuted = st.turns.length ∧
      (now : ℚ) > (st.turnStartTime : ℚ) +
        (turnIntervalMs : ℚ) * st.replaySpeedMultiplier then
    endTurn { st with turnStartTime := now }
  else
    (st, [])

/-- The external events that drive a `LocalServer` instance: a client
message arriving through `Transport.sendMsg`, the 5 ms timer firing at
time `now`, the client's turn-complete signal, pause/resume, and a
`ReplaySpeedChangeEvent`. -/
inductive Event where
  | clientMsg    (msg : ClientMsg)
  | tick         (now : Nat)
  | turnCompleteEv
  | pauseEv
  | resumeEv
  | speedChange  (m : ℚ)
deriving DecidableEq

/-- One event step. Once `endGame()` has cleared the interval, tick events
no longer fire. -/
def step (turnIntervalMs : Nat) (st : State) (e : Event) :
    State × List ServerMsg :=
  match e with
  | .clientMsg m => onMessage st m
  | .tick now => if st.gameEnded then (st, []) else turnCheck turnIntervalMs st now
  | .turnCompleteEv => (turnComplete st, [])
  | .pauseEv => (pause st, [])
  | .resumeEv => (resume st, [])
  | .speedChange m => ({ st with replaySpeedMultiplier := m }, [])

/-- Run a sequence of events, keeping the state. -/
def run (turnIntervalMs : Nat) (st : State) : List Event → State
  | [] => st
  | e :: es => run turnIntervalMs (step turnIntervalMs st e).1 es

/-- The state at the end of `LocalServer.start()`: the class-field
initializers, with `replayTurns` holding
`decompressGameRecord(gameRecord).turns` when a game record is present
(`decompressGameRecord` lives in `core/Util.ts`, outside `src/`; the spec
says replay reads back the archived ordered turn list verbatim).
`defaultReplaySpeedMultiplier` is `ReplaySpeedMultiplier.normal = 1`. -/
def initState (hasGameRecord : Bool) (replayTurns : List Turn) : State :=
  { replayTurns := replayTurns
    turns := []
    intents := []
    paused := false
    replaySpeedMultiplier := 1
    winner := none
    turnsExecuted := 0
    turnStartTime := 0
    hasGameRecord := hasGameRecord
    gameEnded := false }

end LocalServer

/-! ### Supporting lemmas -/

/-- The onopen drain loop with enough fuel sends the buffer reversed:
`Array.pop` takes from the tail. -/
theorem Transport.flushLoopGo_eq_reverse (fuel : Nat) (buffer : List String)
    (hfuel : buffer.length ≤ fuel) :
    Transport.flushLoopGo fuel buffer = buffer.reverse := by
  induction fuel generalizing buffer with
  | zero =>
      cases buffer with
      | nil => rfl
      | cons m rest => simp at hfuel
  | succ n ih =>
      cases buffer with
      | nil => rfl
      | cons m rest =>
          rw [Transport.flushLoopGo, ih]
          · conv_rhs => rw [← List.dropLast_append_getLast
                (l := m :: rest) (by simp)]
            rw [List.reverse_append]
            rfl
          · have hd := List.length_dropLast (m :: rest)
            simp only [List.length_cons] at hfuel hd
            omega

/-- The buffer drain of `socket.onopen` sends exactly the buffered
messages, in reverse submission order. -/
theorem Transport.flushLoop_eq_reverse (buffer : List String) :
    Transport.flushLoop buffer = buffer.reverse :=
  Transport.flushLoopGo_eq_reverse buffer.length buffer le_rfl

/-- `setHash` keeps the list length. -/
theorem LocalServer.setHash_length (l : List Turn) (n h : Nat) :
    (LocalServer.setHash l n h).length = l.length := by
  induction l generalizing n with
  | nil => rfl
  | cons t ts ih =>
      cases n with
      | zero => rfl
      | succ m => simpa [LocalServer.setHash] using ih m

/-- `setHash` at the target index only replaces the hash field. -/
theorem LocalServer.setHash_getElem_self (l : List Turn) (n h : Nat) :
    (LocalServer.setHash l n h)[n]? =
      (l[n]?).map fun t => { t with hash := some h } := by
  induction l generalizing n with
  | nil => simp [LocalServer.setHash]
  | cons t ts ih =>
      cases n with
      | zero => simp [LocalServer.setHash]
      | succ m => simpa [LocalServer.setHash] using ih m

/-- `setHash` leaves every other index untouched. -/
theorem LocalServer.setHash_getElem_ne (l : List Turn) (n h k : Nat)
    (hk : k ≠ n) :
    (LocalServer.setHash l n h)[k]? = l[k]? := by
  induction l generalizing n k with
  | nil => simp [LocalServer.setHash]
  | cons t ts ih =>
      cases n with
      | zero =>
          cases k with
          | zero => exact absurd rfl hk
          | succ j => simp [LocalServer.setHash]
      | succ m =>
          cases k with
          | zero => simp [LocalServer.setHash]
          | succ j => simpa [LocalServer.setHash] using ih m j (by omega)

/-- The turns emitted by `endTurn` (and the committed list it produces)
depend only on the pause flag, the archive, the committed turns and the
live intent buffer — not on the speed multiplier, timing fields or any
other state. -/
theorem LocalServer.endTurn_content_congr (st₁ st₂ : LocalServer.State)
    (hps : st₁.paused = st₂.paused) (hrt : st₁.replayTurns = st₂.replayTurns)
    (ht : st₁.turns = st₂.turns) (hi : st₁.intents = st₂.intents) :
    (LocalServer.endTurn st₁).2 = (LocalServer.endTurn st₂).2
    ∧ (LocalServer.endTurn st₁).1.turns = (LocalServer.endTurn st₂).1.turns := by
  unfold LocalServer.endTurn LocalServer.sealTurn
  simp only [hps, hrt, ht, hi]
  split
  · exact ⟨rfl, ht⟩
  · split
    · split
      · exact ⟨rfl, rfl⟩
      · exact ⟨rfl, rfl⟩
    · exact ⟨rfl, rfl⟩

/-- **C1** (code-bug evaluation). Starting from `turnsSeen = 0`, a `start`
batch containing the single turn numbered 2 makes the handler send the
worker the turns numbered 0 and then 2: the synthesized-empty-turn loop
stops one short, turn 1 is never handed to the simulation, and the
counter ends at 2 even though turn 2 was already applied — so the
sequence of turn numbers handed to the worker is not gapless. -/
theorem start_batch_gap_off_by_one :
    (ClientGameRunner.processStartBatch 0
        [{ turnNumber := 2, intents := [] }]).2.map Turn.turnNumber = [0, 2]
    ∧ (ClientGameRunner.processStartBatch 0
        [{ turnNumber := 2, intents := [] }]).1 = 2 := by
  decide

/-- **C10**. For a joined client, a live `turn` message whose number
differs from the turns-seen counter is never applied and leaves the
counter unchanged (the mismatch is only logged); a live turn is applied
and the counter incremented by one exactly when its number equals the
counter. -/
theorem live_turn_exact_match (turnsSeen : Nat) (turn : Turn) :
    (turn.turnNumber ≠ turnsSeen →
      ClientGameRunner.turnMessageHandler true turnsSeen turn =
        (turnsSeen, [], false))
    ∧ (turn.turnNumber = turnsSeen →
      ClientGameRunner.turnMessageHandler true turnsSeen turn =
        (turnsSeen + 1, [turn], false)) := by
  constructor
  · intro h
    simp [ClientGameRunner.turnMessageHandler, Ne.symm h]
  · intro h
    simp [ClientGameRunner.turnMessageHandler, h]

/-- Witness for `live_turn_exact_match`: at counter 3, turn 5 is dropped
with the counter unchanged, and turn 3 is applied with the counter
incremented. -/
theorem live_turn_exact_match_witness :
    ClientGameRunner.turnMessageHandler true 3
        { turnNumber := 5, intents := [] } = (3, [], false)
    ∧ ClientGameRunner.turnMessageHandler true 3
        { turnNumber := 3, intents := [] } =
      (4, [{ turnNumber := 3, intents := [] }], false) :=
  ⟨(live_turn_exact_match 3 { turnNumber := 5, intents := [] }).1 (by decide),
   (live_turn_exact_match 3 { turnNumber := 3, intents := [] }).2 rfl⟩

/-- **C3** (counterexample). On a worker update carrying the fingerprint
of turn 5, the callback performs the turn-complete signal at position 0
and the fingerprint report at position 1: the completion signal is
emitted BEFORE the fingerprint is reported, contrary to the claim. -/
theorem turnComplete_emitted_before_hash :
    ClientGameRunner.workerUpdateActions (.update [(5, 42)] 0) =
      [.turnComplete, .sendHash 5 42, .viewUpdate, .renderTick]
    ∧ (ClientGameRunner.workerUpdateActions (.update [(5, 42)] 0)).indexOf
        .turnComplete <
      (ClientGameRunner.workerUpdateActions (.update [(5, 42)] 0)).indexOf
        (.sendHash 5 42) := by
  decide

/-- Recognises the fingerprint-report actions of the worker update
callback. -/
def ClientGameRunner.isHashReport : ClientGameRunner.RunnerAction → Bool
  | .sendHash _ _ => true
  | _ => false

/-- **C3** (amended). On every non-error worker update the turn-complete
signal is the FIRST action of the callback — it precedes the fingerprint
reports — and the hash messages reported to the turn source are exactly
the worker-computed fingerprints, in order, within the same synchronous
callback. -/
theorem turnComplete_first_then_hash (hashes : List (Nat × Nat)) (wins : Nat) :
    (ClientGameRunner.workerUpdateActions (.update hashes wins)).head? =
      some .turnComplete
    ∧ (ClientGameRunner.workerUpdateActions (.update hashes wins)).filter
        ClientGameRunner.isHashReport =
      hashes.map (fun h => .sendHash h.1 h.2) := by
  refine ⟨rfl, ?_⟩
  simp only [ClientGameRunner.workerUpdateActions, List.filter_cons,
    List.filter_append, ClientGameRunner.isHashReport]
  have htail :
      List.filter ClientGameRunner.isHashReport
        (if wins > 0 then [ClientGameRunner.RunnerAction.saveGame] else [])
        = [] := by
    split <;> rfl
  rw [htail]
  induction hashes with
  | nil => rfl
  | cons hd tl ih => simpa [ClientGameRunner.isHashReport] using ih

/-- **C4**. The `LocalServer` tick emits a new turn only when BOTH hold:
the client has signalled completion of every committed turn
(`turnsExecuted = turns.length`) and the configured tick interval scaled
by the current speed multiplier has elapsed since `turnStartTime` (which
the source resets at every firing, hence at every emission); and the speed
multiplier influences only whether the check fires, never the emitted
messages or the committed turns. -/
theorem localserver_emission_backpressure (T : Nat) (st : LocalServer.State)
    (now : Nat) :
    ((LocalServer.turnCheck T st now).2 ≠ [] ∨
        (LocalServer.turnCheck T st now).1.turns ≠ st.turns →
      st.turnsExecuted = st.turns.length ∧
        (now : ℚ) > (st.turnStartTime : ℚ) +
          (T : ℚ) * st.replaySpeedMultiplier)
    ∧ (∀ (m₁ m₂ : ℚ) (now₁ now₂ : Nat),
        (LocalServer.turnCheck T
            { st with replaySpeedMultiplier := m₁ } now₁).2 ≠ [] →
        (LocalServer.turnCheck T
            { st with replaySpeedMultiplier := m₂ } now₂).2 ≠ [] →
        (LocalServer.turnCheck T
            { st with replaySpeedMultiplier := m₁ } now₁).2 =
          (LocalServer.turnCheck T
            { st with replaySpeedMultiplier := m₂ } now₂).2
        ∧ (LocalServer.turnCheck T
            { st with replaySpeedMultiplier := m₁ } now₁).1.turns =
          (LocalServer.turnCheck T
            { st with replaySpeedMultiplier := m₂ } now₂).1.turns) := by
  constructor
  · intro hfired
    rw [LocalServer.turnCheck] at hfired
    by_cases hc : st.turnsExecuted = st.turns.length ∧
        (now : ℚ) > (st.turnStartTime : ℚ) + (T : ℚ) * st.replaySpeedMultiplier
    · exact hc
    · rw [if_neg hc] at hfired
      rcases hfired with h | h <;> exact absurd rfl h
  · intro m₁ m₂ now₁ now₂ h₁ h₂
    unfold LocalServer.turnCheck at h₁ h₂ ⊢
    by_cases hc₁ : ({ st with replaySpeedMultiplier := m₁ } :
          LocalServer.State).turnsExecuted =
          ({ st with replaySpeedMultiplier := m₁ } :
            LocalServer.State).turns.length ∧
        ((now₁ : ℚ) > (({ st with replaySpeedMultiplier := m₁ } :
            LocalServer.State).turnStartTime : ℚ) +
          (T : ℚ) * ({ st with replaySpeedMultiplier := m₁ } :
            LocalServer.State).replaySpeedMultiplier)
    · by_cases hc₂ : ({ st with replaySpeedMultiplier := m₂ } :
            LocalServer.State).turnsExecuted =
            ({ st with replaySpeedMultiplier := m₂ } :
              LocalServer.State).turns.length ∧
          ((now₂ : ℚ) > (({ st with replaySpeedMultiplier := m₂ } :
              LocalServer.State).turnStartTime : ℚ) +
            (T : ℚ) * ({ st with replaySpeedMultiplier := m₂ } :
              LocalServer.State).replaySpeedMultiplier)
      · rw [if_pos hc₁, if_pos hc₂]
        exact LocalServer.endTurn_content_congr _ _ rfl rfl rfl rfl
      · rw [if_neg hc₂] at h₂
        exact absurd rfl h₂
    · rw [if_neg hc₁] at h₁
      exact absurd rfl h₁

/-- A concrete firing of the tick check: fresh single-player state,
interval 100 ms, multiplier 1, timer fires at t = 1000 ms, emitting
turn 0. -/
theorem LocalServer.turnCheck_fires_sample :
    LocalServer.turnCheck 100 (LocalServer.initState false []) 1000 =
      ({ LocalServer.initState false [] with
          turns := [{ turnNumber := 0, intents := [] }],
          turnStartTime := 1000 },
        [.turn { turnNumber := 0, intents := [] }]) := by
  have hc : (LocalServer.initState false []).turnsExecuted =
      (LocalServer.initState false []).turns.length ∧
      ((1000 : Nat) : ℚ) >
        ((LocalServer.initState false []).turnStartTime : ℚ) +
          ((100 : Nat) : ℚ) *
            (LocalServer.initState false []).replaySpeedMultiplier := by
    refine ⟨rfl, ?_⟩
    norm_num [LocalServer.initState]
  rw [LocalServer.turnCheck, if_pos hc]
  rfl

/-- Witness for `localserver_emission_backpressure`: the firing at
t = 1000 ms implies both back-pressure conditions held in the fresh
state. -/
theorem localserver_emission_backpressure_witness :
    (LocalServer.initState false []).turnsExecuted =
      (LocalServer.initState false []).turns.length
    ∧ ((1000 : Nat) : ℚ) >
        ((LocalServer.initState false []).turnStartTime : ℚ) +
          ((100 : Nat) : ℚ) *
            (LocalServer.initState false []).replaySpeedMultiplier :=
  (localserver_emission_backpressure 100 (LocalServer.initState false [])
      1000).1
    (Or.inl (by rw [LocalServer.turnCheck_fires_sample]; simp))

/-- **C5** (counterexample). The archived turn 0 carries the hash value 0
and the reported hash 7 differs from it, yet NO desync message is
delivered: the source's `!archivedHash` truthiness test treats the number
0 as an absent hash and skips the comparison. -/
theorem replay_hash_zero_skipped :
    (LocalServer.initState true
        [{ turnNumber := 0, intents := [], hash := some 0 }]).replayTurns.map
      Turn.hash = [some 0]
    ∧ (0 : Nat) ≠ 7
    ∧ (LocalServer.onMessage
        (LocalServer.initState true
          [{ turnNumber := 0, intents := [], hash := some 0 }])
        (.hash 0 7)).2 = [] := by
  refine ⟨rfl, by decide, rfl⟩

/-- **C5** (amended). In replay mode, for every reported hash for a turn
`n` inside the archive: the state is unchanged; if the archived turn
carries no hash OR the (falsy) hash value 0, the check is skipped with
nothing delivered; if it carries a nonzero hash differing from the
reported one, exactly one desync message naming the turn number, the
archived (expected) hash and the reported (actual) hash is delivered; and
if the nonzero archived hash matches, nothing is delivered. -/
theorem replay_hash_check (st : LocalServer.State) (n h : Nat)
    (hGR : st.hasGameRecord = true)
    (t : Turn) (ht : st.replayTurns[n]? = some t) :
    (LocalServer.onMessage st (.hash n h)).1 = st
    ∧ (t.hash = none ∨ t.hash = some 0 →
        (LocalServer.onMessage st (.hash n h)).2 = [])
    ∧ (∀ ah, t.hash = some ah → ah ≠ 0 → ah ≠ h →
        (LocalServer.onMessage st (.hash n h)).2 = [.desync n ah 0 1 h])
    ∧ (∀ ah, t.hash = some ah → ah = h →
        (LocalServer.onMessage st (.hash n h)).2 = []) := by
  have hbody : LocalServer.onMessage st (.hash n h) =
      match t.hash with
      | none => (st, [])
      | some ah =>
          if ah = 0 then (st, [])
          else if ah ≠ h then (st, [.desync n ah 0 1 h])
          else (st, []) := by
    simp only [LocalServer.onMessage, hGR, not_true, if_neg, ite_false]
    rw [ht]
  refine ⟨?_, ?_, ?_, ?_⟩
  · rw [hbody]
    rcases t.hash with _ | ah
    · rfl
    · by_cases h0 : ah = 0
      · simp [h0]
      · by_cases hne : ah ≠ h
        · simp [h0, hne]
        · simp [h0, hne]
  · rintro (hh | hh)
    · rw [hbody, hh]
    · rw [hbody, hh]
      simp
  · intro ah hh h0 hne
    rw [hbody, hh]
    simp [h0, hne]
  · intro ah hh heq
    rw [hbody, hh]
    simp [heq]

/-- Witness for `replay_hash_check`: archived hash 5, reported hash 7 —
one desync message naming turn 0, expected 5, actual 7; archived hash 5,
reported 5 — nothing delivered. -/
theorem replay_hash_check_witness :
    (LocalServer.onMessage
        (LocalServer.initState true
          [{ turnNumber := 0, intents := [], hash := some 5 }])
        (.hash 0 7)).2 = [.desync 0 5 0 1 7]
    ∧ (LocalServer.onMessage
        (LocalServer.initState true
          [{ turnNumber := 0, intents := [], hash := some 5 }])
        (.hash 0 5)).2 = [] :=
  ⟨(replay_hash_check (LocalServer.initState true
        [{ turnNumber := 0, intents := [], hash := some 5 }]) 0 7 rfl
      { turnNumber := 0, intents := [], hash := some 5 } rfl).2.2.1 5 rfl
      (by decide) (by decide),
   (replay_hash_check (LocalServer.initState true
        [{ turnNumber := 0, intents := [], hash := some 5 }]) 0 5 rfl
      { turnNumber := 0, intents := [], hash := some 5 } rfl).2.2.2 5 rfl rfl⟩

/-- The intent value `i` appears in none of the server's live buffer,
committed turns, or archive. -/
def LocalServer.intentFresh (i : Intent) (st : LocalServer.State) : Prop :=
  i ∉ st.intents
  ∧ (∀ t ∈ st.turns, i ∉ t.intents)
  ∧ (∀ t ∈ st.replayTurns, i ∉ t.intents)

/-- `setHash` touches only hash fields: every resulting turn keeps the
intent list of a turn of the original list. -/
theorem LocalServer.setHash_intents (l : List Turn) (n h : Nat) :
    ∀ t ∈ LocalServer.setHash l n h, ∃ t₀ ∈ l, t.intents = t₀.intents := by
  induction l generalizing n with
  | nil => simp [LocalServer.setHash]
  | cons t₀ ts ih =>
      cases n with
      | zero =>
          intro t htl
          rcases List.mem_cons.mp htl with h' | h'
          · exact ⟨t₀, List.mem_cons_self _ _, by rw [h']⟩
          · exact ⟨t, List.mem_cons_of_mem _ h', rfl⟩
      | succ m =>
          intro t htl
          rcases List.mem_cons.mp htl with h' | h'
          · exact ⟨t₀, List.mem_cons_self _ _, by rw [h']⟩
          · obtain ⟨t₁, ht₁, he⟩ := ih m t h'
            exact ⟨t₁, List.mem_cons_of_mem _ ht₁, he⟩

/-- In replay mode a hash message never changes the state. -/
theorem LocalServer.onMessage_hash_replay_state (st : LocalServer.State)
    (hGR : st.hasGameRecord = true) (n hsh : Nat) :
    (LocalServer.onMessage st (.hash n hsh)).1 = st := by
  simp only [LocalServer.onMessage, hGR, not_true, ite_false]
  rcases hx : st.replayTurns[n]? with _ | t
  · rfl
  · dsimp only
    rcases hh : t.hash with _ | ah
    · rfl
    · dsimp only
      by_cases h0 : ah = 0
      · simp [h0]
      · by_cases hne : ah = hsh
        · simp [h0, hne]
        · simp [h0, hne]

/-- `endTurn` introduces no new intent values: every intent of the
resulting state was already in the live buffer, a committed turn, or the
archive. -/
theorem LocalServer.endTurn_intentFresh (st : LocalServer.State) (i : Intent)
    (hf : LocalServer.intentFresh i st) :
    LocalServer.intentFresh i (LocalServer.endTurn st).1 := by
  obtain ⟨h1, h2, h3⟩ := hf
  unfold LocalServer.endTurn LocalServer.sealTurn
  split
  · exact ⟨h1, h2, h3⟩
  · split
    · split
      · exact ⟨h1, h2, h3⟩
      · rename_i hlen hge
        refine ⟨by simp, ?_, h3⟩
        intro t htl
        rcases List.mem_append.mp htl with h' | h'
        · exact h2 t h'
        · have h'' : t =
              { turnNumber := st.turns.length,
                intents := (st.replayTurns.getD st.turns.length
                  { turnNumber := 0, intents := [] }).intents } := by
            simpa using h'
          subst h''
          have hlt : st.turns.length < st.replayTurns.length := by omega
          rw [List.getD_eq_getElem _ _ hlt]
          exact h3 (st.replayTurns[st.turns.length]) (List.getElem_mem hlt)
    · refine ⟨by simp, ?_, h3⟩
      intro t htl
      rcases List.mem_append.mp htl with h' | h'
      · exact h2 t h'
      · have h'' : t =
            { turnNumber := st.turns.length,
              intents := st.intents } := by
          simpa using h'
        subst h''
        exact h1

/-- One-step preservation: if `i` is fresh and the step is not an
unpaused submission of `i` itself, then `i` stays fresh. -/
theorem LocalServer.step_intentFresh (T : Nat) (st : LocalServer.State)
    (e : LocalServer.Event) (i : Intent)
    (hf : LocalServer.intentFresh i st)
    (he : e = .clientMsg (.intent i) → st.paused = true) :
    LocalServer.intentFresh i (LocalServer.step T st e).1 := by
  obtain ⟨h1, h2, h3⟩ := hf
  cases e with
  | clientMsg m =>
      cases m with
      | intent j =>
          by_cases hGR : st.hasGameRecord = true
          · simpa [LocalServer.step, LocalServer.onMessage, hGR] using
              (⟨h1, h2, h3⟩ : LocalServer.intentFresh i st)
          · by_cases hp : st.paused = true
            · simpa [LocalServer.step, LocalServer.onMessage, hGR, hp] using
                (⟨h1, h2, h3⟩ : LocalServer.intentFresh i st)
            · have hij : ¬(j = i) := fun hji => hp (he (by rw [hji]))
              simp only [LocalServer.step, LocalServer.onMessage, hGR, hp,
                ite_false, if_neg, Bool.false_eq_true, LocalServer.intentFresh]
              refine ⟨?_, h2, h3⟩
              simp only [List.mem_append, List.mem_singleton]
              rintro (hmem | hmem)
              · exact h1 hmem
              · exact hij hmem.symm
      | hash n hsh =>
          by_cases hGR : st.hasGameRecord = true
          · have hst : (LocalServer.step T st
                (.clientMsg (.hash n hsh))).1 = st :=
              LocalServer.onMessage_hash_replay_state st hGR n hsh
            rw [hst]
            exact ⟨h1, h2, h3⟩
          · by_cases h100 : n % 100 = 0
            · simp only [LocalServer.step, LocalServer.onMessage, hGR, h100,
                ite_true, if_pos, Bool.false_eq_true, not_false_iff,
                LocalServer.intentFresh]
              refine ⟨h1, ?_, h3⟩
              intro t htl
              obtain ⟨t₀, ht₀, he'⟩ :=
                LocalServer.setHash_intents st.turns n hsh t htl
              rw [he']
              exact h2 t₀ ht₀
            · simpa [LocalServer.step, LocalServer.onMessage, hGR, h100] using
                (⟨h1, h2, h3⟩ : LocalServer.intentFresh i st)
      | winner w =>
          exact ⟨h1, h2, h3⟩
  | tick now =>
      by_cases hge : st.gameEnded = true
      · simpa [LocalServer.step, hge] using
          (⟨h1, h2, h3⟩ : LocalServer.intentFresh i st)
      · simp only [LocalServer.step, hge, Bool.false_eq_true, ite_false]
        unfold LocalServer.turnCheck
        split
        · exact LocalServer.endTurn_intentFresh _ i ⟨h1, h2, h3⟩
        · exact ⟨h1, h2, h3⟩
  | turnCompleteEv => exact ⟨h1, h2, h3⟩
  | pauseEv => exact ⟨h1, h2, h3⟩
  | resumeEv => exact ⟨h1, h2, h3⟩
  | speedChange m => exact ⟨h1, h2, h3⟩

/-- Trace-level preservation: if every submission of `i` in the event
sequence happens while the server is paused, `i` stays fresh. -/
theorem LocalServer.run_intentFresh (T : Nat) (i : Intent)
    (st : LocalServer.State) (es : List LocalServer.Event)
    (h0 : LocalServer.intentFresh i st)
    (hp : ∀ k (hk : k < es.length),
        es.get ⟨k, hk⟩ = .clientMsg (.intent i) →
        (LocalServer.run T st (es.take k)).paused = true) :
    LocalServer.intentFresh i (LocalServer.run T st es) := by
  induction es generalizing st with
  | nil => exact h0
  | cons e rest ih =>
      rw [LocalServer.run]
      apply ih
      · apply LocalServer.step_intentFresh T st e i h0
        intro hei
        have := hp 0 (by simp) (by simpa using hei)
        simpa [LocalServer.run] using this
      · intro k hk hkE
        have := hp (k + 1) (by simpa using Nat.succ_lt_succ hk)
          (by simpa using hkE)
        simpa [LocalServer.run, List.take_succ_cons] using this

/-- **C6**. While the LocalServer is paused, the emission step is a no-op
(`endTurn` changes nothing and emits nothing) and every incoming intent
message is dropped without being queued; `resume` only clears the paused
flag (after which emission follows the normal unpaused path); and an
intent value that is only ever submitted while the server is paused (and
does not occur in the archive) never appears in any committed turn of any
reachable state. -/
theorem pause_blocks_intents (T : Nat) (st : LocalServer.State)
    (hasGR : Bool) (rts : List Turn) (i : Intent)
    (es : List LocalServer.Event) :
    (st.paused = true →
      LocalServer.endTurn st = (st, [])
      ∧ ∀ j, LocalServer.onMessage st (.intent j) = (st, []))
    ∧ LocalServer.resume st = { st with paused := false }
    ∧ ((∀ t ∈ rts, i ∉ t.intents) →
        (∀ k (hk : k < es.length),
            es.get ⟨k, hk⟩ = .clientMsg (.intent i) →
            (LocalServer.run T (LocalServer.initState hasGR rts)
              (es.take k)).paused = true) →
        ∀ t ∈ (LocalServer.run T (LocalServer.initState hasGR rts) es).turns,
          i ∉ t.intents) := by
  refine ⟨?_, rfl, ?_⟩
  · intro hp
    constructor
    · rw [LocalServer.endTurn, if_pos hp]
    · intro j
      by_cases hGR : st.hasGameRecord = true
      · simp [LocalServer.onMessage, hGR]
      · simp [LocalServer.onMessage, hGR, hp]
  · intro hrts hponly
    have h0 : LocalServer.intentFresh i (LocalServer.initState hasGR rts) :=
      ⟨by simp [LocalServer.initState], by simp [LocalServer.initState], hrts⟩
    exact (LocalServer.run_intentFresh T i _ es h0 hponly).2.1

/-- Evaluation of a sample trace: pause, an intent submitted while
paused, resume, then a tick at t = 1000 ms that emits turn 0 — whose
intent list is empty because the paused submission was dropped. -/
theorem LocalServer.run_pause_sample_eval :
    LocalServer.run 100 (LocalServer.initState false [])
      [.pauseEv,
       .clientMsg (.intent { kind := "spawn", clientID := "c9", payload := 7 }),
       .resumeEv, .tick 1000] =
      { LocalServer.initState false [] with
          turns := [{ turnNumber := 0, intents := [] }],
          turnStartTime := 1000 } := by
  have h2 : LocalServer.run 100 (LocalServer.initState false [])
      [.pauseEv,
       .clientMsg (.intent { kind := "spawn", clientID := "c9", payload := 7 }),
       .resumeEv, .tick 1000] =
      (LocalServer.turnCheck 100 (LocalServer.initState false []) 1000).1 := rfl
  rw [h2, LocalServer.turnCheck_fires_sample]

/-- Witness for `pause_blocks_intents`: running the sample trace, the
intent submitted during the pause does not occur in the emitted turn 0. -/
theorem pause_blocks_intents_witness :
    ({ kind := "spawn", clientID := "c9", payload := 7 } : Intent) ∉
      ({ turnNumber := 0, intents := [] } : Turn).intents :=
  (pause_blocks_intents 100 (LocalServer.initState false []) false []
      { kind := "spawn", clientID := "c9", payload := 7 }
      [.pauseEv,
       .clientMsg (.intent { kind := "spawn", clientID := "c9", payload := 7 }),
       .resumeEv, .tick 1000]).2.2
    (by simp)
    (by decide)
    { turnNumber := 0, intents := [] }
    (by rw [LocalServer.run_pause_sample_eval]; simp)

/-- The committed turn list is correctly numbered: the turn at index `k`
carries turn number `k`. -/
def LocalServer.numbered (l : List Turn) : Prop :=
  ∀ k (hk : k < l.length), (l.get ⟨k, hk⟩).turnNumber = k

/-- `new` extends `old`: it is at least as long and agrees with it in
turn number and intent list at every old index (only the hash field of an
old entry may differ). -/
def LocalServer.turnsExtend (old new : List Turn) : Prop :=
  old.length ≤ new.length
  ∧ ∀ k (hko : k < old.length) (hkn : k < new.length),
      (new.get ⟨k, hkn⟩).turnNumber = (old.get ⟨k, hko⟩).turnNumber
      ∧ (new.get ⟨k, hkn⟩).intents = (old.get ⟨k, hko⟩).intents

theorem LocalServer.turnsExtend_refl (l : List Turn) :
    LocalServer.turnsExtend l l :=
  ⟨le_rfl, fun _ _ _ => ⟨rfl, rfl⟩⟩

theorem LocalServer.turnsExtend_trans {a b c : List Turn}
    (hab : LocalServer.turnsExtend a b) (hbc : LocalServer.turnsExtend b c) :
    LocalServer.turnsExtend a c := by
  refine ⟨hab.1.trans hbc.1, ?_⟩
  intro k hka hkc
  have hkb : k < b.length := lt_of_lt_of_le hka hab.1
  obtain ⟨hn1, hi1⟩ := hab.2 k hka hkb
  obtain ⟨hn2, hi2⟩ := hbc.2 k hkb hkc
  exact ⟨hn2.trans hn1, hi2.trans hi1⟩

/-- Appending one turn extends the committed list. -/
theorem LocalServer.turnsExtend_append (l : List Turn) (t : Turn) :
    LocalServer.turnsExtend l (l ++ [t]) := by
  refine ⟨by simp, ?_⟩
  intro k hko hkn
  rw [List.get_eq_getElem, List.get_eq_getElem, List.getElem_append_left hko]
  exact ⟨rfl, rfl⟩

/-- `setHash` extends the committed list (it changes only hash fields). -/
theorem LocalServer.turnsExtend_setHash (l : List Turn) (n h : Nat) :
    LocalServer.turnsExtend l (LocalServer.setHash l n h) := by
  refine ⟨by rw [LocalServer.setHash_length], ?_⟩
  intro k hko hkn
  by_cases hkn' : k = n
  · subst hkn'
    have hself := LocalServer.setHash_getElem_self l k h
    rw [List.getElem?_eq_getElem hko] at hself
    rw [List.get_eq_getElem, List.get_eq_getElem]
    rw [List.getElem?_eq_getElem hkn] at hself
    simp only [Option.map_some'] at hself
    rw [Option.some_inj] at hself
    rw [hself]
    exact ⟨rfl, rfl⟩
  · have hne := LocalServer.setHash_getElem_ne l n h k hkn'
    rw [List.getElem?_eq_getElem hko, List.getElem?_eq_getElem hkn] at hne
    rw [Option.some_inj] at hne
    rw [List.get_eq_getElem, List.get_eq_getElem, hne]
    exact ⟨rfl, rfl⟩

/-- Appending the freshly sealed turn keeps the list correctly numbered. -/
theorem LocalServer.numbered_append (l : List Turn) (i : List Intent)
    (hl : LocalServer.numbered l) :
    LocalServer.numbered (l ++ [{ turnNumber := l.length, intents := i }]) := by
  intro k hk
  rw [List.length_append, List.length_singleton] at hk
  rw [List.get_eq_getElem]
  by_cases hkl : k < l.length
  · rw [List.getElem_append_left hkl]
    exact hl k hkl
  · have hk' : k = l.length := by omega
    subst hk'
    simp

/-- `endTurn` extends the committed list and preserves its numbering. -/
theorem LocalServer.endTurn_extend_numbered (st : LocalServer.State)
    (hn : LocalServer.numbered st.turns) :
    LocalServer.turnsExtend st.turns (LocalServer.endTurn st).1.turns
    ∧ LocalServer.numbered (LocalServer.endTurn st).1.turns := by
  unfold LocalServer.endTurn LocalServer.sealTurn
  split
  · exact ⟨LocalServer.turnsExtend_refl _, hn⟩
  · split
    · split
      · exact ⟨LocalServer.turnsExtend_refl _, hn⟩
      · exact ⟨LocalServer.turnsExtend_append _ _,
          LocalServer.numbered_append _ _ hn⟩
    · exact ⟨LocalServer.turnsExtend_append _ _,
        LocalServer.numbered_append _ _ hn⟩

/-- One step extends the committed list and preserves its numbering. -/
theorem LocalServer.step_extend_numbered (T : Nat) (st : LocalServer.State)
    (e : LocalServer.Event) (hn : LocalServer.numbered st.turns) :
    LocalServer.turnsExtend st.turns (LocalServer.step T st e).1.turns
    ∧ LocalServer.numbered (LocalServer.step T st e).1.turns := by
  cases e with
  | clientMsg m =>
      cases m with
      | intent j =>
          by_cases hGR : st.hasGameRecord = true
          · simpa [LocalServer.step, LocalServer.onMessage, hGR] using
              ⟨LocalServer.turnsExtend_refl st.turns, hn⟩
          · by_cases hp : st.paused = true
            · simpa [LocalServer.step, LocalServer.onMessage, hGR, hp] using
                ⟨LocalServer.turnsExtend_refl st.turns, hn⟩
            · simpa [LocalServer.step, LocalServer.onMessage, hGR, hp] using
                ⟨LocalServer.turnsExtend_refl st.turns, hn⟩
      | hash n hsh =>
          by_cases hGR : st.hasGameRecord = true
          · have hst := LocalServer.onMessage_hash_replay_state st hGR n hsh
            have hst' : (LocalServer.step T st
                (.clientMsg (.hash n hsh))).1 = st := hst
            rw [hst']
            exact ⟨LocalServer.turnsExtend_refl _, hn⟩
          · by_cases h100 : n % 100 = 0
            · have hset := LocalServer.turnsExtend_setHash st.turns n hsh
              have hlen := LocalServer.setHash_length st.turns n hsh
              have hnum : LocalServer.numbered
                  (LocalServer.setHash st.turns n hsh) := by
                intro k hk
                have hk' : k < st.turns.length := by omega
                obtain ⟨hnn, _⟩ := hset.2 k hk' hk
                rw [hnn]
                exact hn k hk'
              simpa [LocalServer.step, LocalServer.onMessage, hGR, h100] using
                ⟨hset, hnum⟩
            · simpa [LocalServer.step, LocalServer.onMessage, hGR, h100] using
                ⟨LocalServer.turnsExtend_refl st.turns, hn⟩
      | winner w =>
          exact ⟨LocalServer.turnsExtend_refl _, hn⟩
  | tick now =>
      by_cases hge : st.gameEnded = true
      · simpa [LocalServer.step, hge] using
          ⟨LocalServer.turnsExtend_refl st.turns, hn⟩
      · simp only [LocalServer.step, hge, Bool.false_eq_true, ite_false]
        unfold LocalServer.turnCheck
        split
        · exact LocalServer.endTurn_extend_numbered
            { st with turnStartTime := now } hn
        · exact ⟨LocalServer.turnsExtend_refl _, hn⟩
  | turnCompleteEv => exact ⟨LocalServer.turnsExtend_refl _, hn⟩
  | pauseEv => exact ⟨LocalServer.turnsExtend_refl _, hn⟩
  | resumeEv => exact ⟨LocalServer.turnsExtend_refl _, hn⟩
  | speedChange m => exact ⟨LocalServer.turnsExtend_refl _, hn⟩

/-- A run extends the committed list and preserves its numbering. -/
theorem LocalServer.run_extend_numbered (T : Nat) (st : LocalServer.State)
    (es : List LocalServer.Event) (hn : LocalServer.numbered st.turns) :
    LocalServer.turnsExtend st.turns (LocalServer.run T st es).turns
    ∧ LocalServer.numbered (LocalServer.run T st es).turns := by
  induction es generalizing st with
  | nil => exact ⟨LocalServer.turnsExtend_refl _, hn⟩
  | cons e rest ih =>
      obtain ⟨he, hn'⟩ := LocalServer.step_extend_numbered T st e hn
      obtain ⟨hr, hn''⟩ := ih (LocalServer.step T st e).1 hn'
      exact ⟨LocalServer.turnsExtend_trans he hr, hn''⟩

/-- **C7**. In every reachable LocalServer state the committed turn list
is numbered 0, 1, 2, … with no gap and no duplicate (the turn at index
`k` carries turn number `k`, i.e. each committed turn's number equals the
number of previously committed turns), and across any further events the
already committed turns keep their turn number and intent list — only the
hash field may be attached later. -/
theorem committed_turn_numbering (T : Nat) (hasGR : Bool) (rts : List Turn)
    (es more : List LocalServer.Event) :
    LocalServer.numbered
      (LocalServer.run T (LocalServer.initState hasGR rts) es).turns
    ∧ LocalServer.turnsExtend
        (LocalServer.run T (LocalServer.initState hasGR rts) es).turns
        (LocalServer.run T
          (LocalServer.run T (LocalServer.initState hasGR rts) es) more).turns := by
  have h0 : LocalServer.numbered (LocalServer.initState hasGR rts).turns := by
    intro k hk
    simp [LocalServer.initState] at hk
  obtain ⟨_, hn⟩ := LocalServer.run_extend_numbered T _ es h0
  obtain ⟨hext, _⟩ := LocalServer.run_extend_numbered T _ more hn
  exact ⟨hn, hext⟩

/-- Witness for `committed_turn_numbering`: after the sample tick the
single committed turn (at index 0) carries turn number 0. -/
theorem committed_turn_numbering_witness :
    (LocalServer.run 100 (LocalServer.initState false [])
        [LocalServer.Event.tick 1000]).turns[0]?.map Turn.turnNumber =
      some 0 := by
  have hk : 0 < (LocalServer.run 100 (LocalServer.initState false [])
      [LocalServer.Event.tick 1000]).turns.length := by
    have h2 : LocalServer.run 100 (LocalServer.initState false [])
        [LocalServer.Event.tick 1000] =
        (LocalServer.turnCheck 100 (LocalServer.initState false []) 1000).1 :=
      rfl
    rw [h2, LocalServer.turnCheck_fires_sample]
    simp
  have hnum := (committed_turn_numbering 100 false []
    [LocalServer.Event.tick 1000] []).1 0 hk
  rw [List.getElem?_eq_getElem hk]
  exact congrArg some hnum

/-- **C8** (counterexample). A replay whose decompressed archive is the
EMPTY turn list: every archived turn (all zero of them) has already been
emitted, yet `endTurn` does not end the game — the `replayTurns.length >
0` guard never fires, so the server seals and emits a fresh turn 0 from
the live intent buffer and the emission timer keeps running. -/
theorem replay_empty_archive_keeps_emitting :
    (LocalServer.initState true []).hasGameRecord = true
    ∧ (LocalServer.initState true []).replayTurns.length ≤
        (LocalServer.initState true []).turns.length
    ∧ (LocalServer.endTurn (LocalServer.initState true [])).2 =
        [.turn { turnNumber := 0, intents := [] }]
    ∧ (LocalServer.endTurn (LocalServer.initState true [])).1.gameEnded =
        false := by
  refine ⟨rfl, le_rfl, rfl, rfl⟩

/-- **C8** (amended). In replay mode the LocalServer ignores every
incoming intent message entirely; when the decompressed archive is
NONEMPTY and the server is not paused: while fewer turns are committed
than archived, `endTurn` emits exactly the turn numbered
`N = turns.length` whose intents are the archived intents at index `N`,
and once every archived turn has been emitted it ends the game (stops the
emission timer) and emits nothing. (With an empty decompressed archive
the replay checks never fire and the server keeps emitting empty-buffer
turns — see the counterexample.) -/
theorem replay_turn_source (st : LocalServer.State)
    (hGR : st.hasGameRecord = true) :
    (∀ i, LocalServer.onMessage st (.intent i) = (st, []))
    ∧ (st.paused = false →
        ∀ hlt : st.turns.length < st.replayTurns.length,
          LocalServer.endTurn st =
            ({ st with
                turns := st.turns ++
                  [{ turnNumber := st.turns.length,
                     intents := (st.replayTurns.get
                        ⟨st.turns.length, hlt⟩).intents }],
                intents := [] },
              [.turn { turnNumber := st.turns.length,
                       intents := (st.replayTurns.get
                          ⟨st.turns.length, hlt⟩).intents }]))
    ∧ (st.paused = false → st.replayTurns ≠ [] →
        st.turns.length ≥ st.replayTurns.length →
        LocalServer.endTurn st = ({ st with gameEnded := true }, [])) := by
  refine ⟨?_, ?_, ?_⟩
  · intro i
    simp [LocalServer.onMessage, hGR]
  · intro hp hlt
    rw [LocalServer.endTurn, if_neg (by simp [hp]), if_pos (by omega),
      if_neg (by omega)]
    unfold LocalServer.sealTurn
    rw [List.getD_eq_getElem _ _ hlt]
    rfl
  · intro hp hne hge
    rw [LocalServer.endTurn, if_neg (by simp [hp]),
      if_pos (List.length_pos.mpr hne), if_pos hge]

/-- A concrete one-turn replay state: the archive holds exactly the turn
0 whose single intent is a spawn by client c1. -/
def LocalServer.replaySample : LocalServer.State :=
  LocalServer.initState true
    [{ turnNumber := 0,
       intents := [{ kind := "spawn", clientID := "c1", payload := 0 }] }]

/-- Witness for `replay_turn_source`: the sample replay drops a live
intent, emits archived turn 0 verbatim, and ends the game once the one
archived turn has been emitted. -/
theorem replay_turn_source_witness :
    LocalServer.onMessage LocalServer.replaySample
        (.intent { kind := "attack", clientID := "c2", payload := 1 }) =
      (LocalServer.replaySample, [])
    ∧ (LocalServer.endTurn LocalServer.replaySample).2 =
      [.turn { turnNumber := 0,
               intents := [{ kind := "spawn", clientID := "c1",
                             payload := 0 }] }]
    ∧ (LocalServer.endTurn { LocalServer.replaySample with
          turns := [{ turnNumber := 0,
                      intents := [{ kind := "spawn", clientID := "c1",
                                    payload := 0 }] }] }).1.gameEnded =
      true := by
  refine ⟨(replay_turn_source LocalServer.replaySample rfl).1 _, ?_, ?_⟩
  · rw [(replay_turn_source LocalServer.replaySample rfl).2.1 rfl
      (by decide)]
    rfl
  · rw [(replay_turn_source { LocalServer.replaySample with
        turns := [{ turnNumber := 0,
                    intents := [{ kind := "spawn", clientID := "c1",
                                  payload := 0 }] }] } rfl).2.2 rfl
      (by decide) (by decide)]

/-- **C9**. In single-player mode a reported hash for committed turn `n`
is stored on that turn's record iff `n` is a multiple of 100 — the hash
of the turn at index `n` becomes the reported value, every other index is
untouched — hashes for all other turns leave the state unchanged, and no
comparison is ever performed (no message of any kind is delivered on a
hash report). -/
theorem singleplayer_hash_sampling (st : LocalServer.State) (n h : Nat)
    (hGR : st.hasGameRecord = false) (_hn : n < st.turns.length) :
    (LocalServer.onMessage st (.hash n h)).2 = []
    ∧ (n % 100 = 0 →
        (LocalServer.onMessage st (.hash n h)).1 =
          { st with turns := LocalServer.setHash st.turns n h }
        ∧ (LocalServer.setHash st.turns n h)[n]? =
            (st.turns[n]?).map (fun t => { t with hash := some h })
        ∧ ∀ k, k ≠ n → (LocalServer.setHash st.turns n h)[k]? = st.turns[k]?)
    ∧ (n % 100 ≠ 0 → LocalServer.onMessage st (.hash n h) = (st, [])) := by
  refine ⟨?_, ?_, ?_⟩
  · by_cases h100 : n % 100 = 0
    · simp [LocalServer.onMessage, hGR, h100]
    · simp [LocalServer.onMessage, hGR, h100]
  · intro h100
    exact ⟨by simp [LocalServer.onMessage, hGR, h100],
      LocalServer.setHash_getElem_self st.turns n h,
      fun k hk => LocalServer.setHash_getElem_ne st.turns n h k hk⟩
  · intro h100
    simp [LocalServer.onMessage, hGR, h100]

/-- A concrete single-player state with two committed turns. -/
def LocalServer.spSample : LocalServer.State :=
  { LocalServer.initState false [] with
      turns := [{ turnNumber := 0, intents := [] },
                { turnNumber := 1, intents := [] }] }

/-- Witness for `singleplayer_hash_sampling`: the report for turn 0
(0 % 100 = 0) is stored and nothing is delivered; the report for turn 1
is discarded entirely. -/
theorem singleplayer_hash_sampling_witness :
    (LocalServer.onMessage LocalServer.spSample (.hash 0 9)).1 =
      { LocalServer.spSample with
          turns := LocalServer.setHash LocalServer.spSample.turns 0 9 }
    ∧ (LocalServer.onMessage LocalServer.spSample (.hash 0 9)).2 = []
    ∧ LocalServer.onMessage LocalServer.spSample (.hash 1 9) =
      (LocalServer.spSample, []) :=
  ⟨((singleplayer_hash_sampling LocalServer.spSample 0 9 rfl
      (by decide)).2.1 rfl).1,
   (singleplayer_hash_sampling LocalServer.spSample 0 9 rfl (by decide)).1,
   (singleplayer_hash_sampling LocalServer.spSample 1 9 rfl
      (by decide)).2.2 (by decide)⟩

/-- **C2** (counterexample). With the two messages "a", "b" buffered in
that submission order, the reopened socket's flush does NOT send them in
original order before the open callback: `Array.pop` drains the buffer
from the tail, so "b" is sent first. -/
theorem buffer_flush_not_fifo :
    Transport.onOpen ["a", "b"] ≠
      ([.wsSend "a", .wsSend "b", .openCallback], []) := by
  decide

/-- **C2** (amended). Upon the connection (re)opening, the Transport
sends exactly the M buffered messages, in REVERSE submission order
(LIFO), all before invoking the open callback; the buffer is left empty,
and a message submitted after the open (socket OPEN) is sent directly —
hence after the flushed messages and the open callback. -/
theorem buffer_flush_lifo (buffer : List String) (newMsg : String) :
    Transport.onOpen buffer =
      (buffer.reverse.map Transport.Action.wsSend ++ [.openCallback], [])
    ∧ Transport.sendMsg (some .opened) (Transport.onOpen buffer).2 newMsg =
        ([], [.wsSend newMsg], false) := by
  constructor
  · unfold Transport.onOpen
    rw [Transport.flushLoop_eq_reverse]
  · rfl

end TrRain
